import Mathlib

/-!
Shallow embedding of the repository `gen3MetadataR` (Python package
`gen3_metadata`), which provides a thin client `Gen3MetadataParser` for the
Gen3 metadata submission API: credential loading with a tolerant JSON-repair
fallback, base-URL resolution from the unverified claims of the api-key JWT,
bearer-token authentication, parameterised data fetch into an in-memory
data store, and flattening of stored payloads into tables.

Two source variants exist:
  * `src/gen3_metadata/gen3_metadata_parser.py` (current, errors re-raised),
    embedded in namespace `Gen3`;
  * `src/gen3_metadata/parser.py` (older, errors in `fetch_data` are printed
    and swallowed), embedded in namespace `Gen3.OldParser`.

External collaborators (the `requests` HTTP library, the filesystem, the
`jwt` decoder, `pandas.json_normalize`) are modelled as explicit inputs
(response values, load/decode results) or as concrete Lean functions noted
in their doc comments.  Machine-level concerns do not arise: all values are
strings, JSON trees and association lists.
-/

set_option autoImplicit false

namespace Gen3

/-- A parsed JSON value, as produced by Python's `json.loads` /
`response.json()`: `null`, booleans, numbers, strings, arrays, objects
(objects keep insertion order, like Python dicts). -/
inductive JVal : Type where
  | jnull : JVal
  | jbool (b : Bool) : JVal
  | jnum (n : Int) : JVal
  | jstr (s : String) : JVal
  | jarr (elems : List JVal) : JVal
  | jobj (fields : List (String × JVal)) : JVal

/-- Lookup in a Python dict modelled as an insertion-ordered association
list: the first binding of the key (bindings are unique in reachable
states). -/
def dictGet {α : Type} : List (String × α) → String → Option α
  | [], _ => none
  | (k', v) :: rest, k => if k' = k then some v else dictGet rest k

/-- Assignment `d[k] = v` on a Python dict modelled as an insertion-ordered
association list: an existing binding is replaced in place, a new key is
appended at the end. -/
def dictSet {α : Type} : List (String × α) → String → α → List (String × α)
  | [], k, v => [(k, v)]
  | (k', v') :: rest, k, v =>
      if k' = k then (k, v) :: rest else (k', v') :: dictSet rest k v

mutual

/-- Python `repr` of a decoded JSON value (naive about string escaping,
which no credential or token in scope needs). -/
def pyRepr : JVal → String
  | .jnull => "None"
  | .jbool b => if b then "True" else "False"
  | .jnum n => toString n
  | .jstr s => "'" ++ s ++ "'"
  | .jarr es => "[" ++ pyReprList es ++ "]"
  | .jobj fs => "\x7b" ++ pyReprFields fs ++ "\x7d"

/-- Comma-separated `repr`s of the elements of a Python list. -/
def pyReprList : List JVal → String
  | [] => ""
  | [e] => pyRepr e
  | e :: es => pyRepr e ++ ", " ++ pyReprList es

/-- Comma-separated `'key': repr(value)` items of a Python dict. -/
def pyReprFields : List (String × JVal) → String
  | [] => ""
  | [(k, v)] => "'" ++ k ++ "': " ++ pyRepr v
  | (k, v) :: fs => "'" ++ k ++ "': " ++ pyRepr v ++ ", " ++ pyReprFields fs

end

/-- Python `str` of a decoded JSON value, as used by the f-string
`f"bearer {access_token}"`: a string formats as itself, anything else as
its `repr`. -/
def pyStr : JVal → String
  | .jstr s => s
  | v => pyRepr v

/-- The Python exceptions the client can raise, by kind. -/
inductive PyErr : Type where
  /-- `requests.exceptions.HTTPError` from `raise_for_status`, carrying the
  response status code. -/
  | httpError (status : Nat) : PyErr
  /-- `KeyError` from subscripting a dict with a missing key. -/
  | keyError (key : String) : PyErr
  /-- `TypeError` from subscripting a non-dict value with a string key. -/
  | typeError : PyErr
  /-- `AttributeError`, e.g. `.removesuffix` on a non-string. -/
  | attributeError : PyErr
  /-- `ValueError` / `json.JSONDecodeError` from parsing a body or file. -/
  | valueError : PyErr
  /-- `FileNotFoundError` from opening the key file. -/
  | fileNotFound : PyErr
  /-- `jwt` decode failure or other `requests` transport failure. -/
  | otherError : PyErr
deriving DecidableEq

/-- An HTTP response as the client observes it: the status code and the
result of `response.json()` (`none` models a body that is not valid JSON,
where `.json()` raises). -/
structure Response : Type where
  status_code : Nat
  body : Option JVal

/-- `requests.Response.raise_for_status`: raises `HTTPError` exactly for
client-error (4xx) and server-error (5xx) status codes, i.e. for
`400 ≤ status < 600`; all other statuses (including 1xx and 3xx) pass. -/
def raise_for_status (r : Response) : Option PyErr :=
  if 400 ≤ r.status_code ∧ r.status_code < 600 then
    some (.httpError r.status_code)
  else none

/-- Whether a status code is a 2xx success. -/
def is2xx (s : Nat) : Bool := 200 ≤ s && s < 300

/-- Python subscript `j[k]` with a string key: on a dict, the binding or
`KeyError`; on anything else, `TypeError`. -/
def pyGetItem (j : JVal) (k : String) : Except PyErr JVal :=
  match j with
  | .jobj fields =>
      match dictGet fields k with
      | some v => .ok v
      | none => .error (.keyError k)
  | _ => .error .typeError

/-- Python `str.removesuffix`: strip the suffix when the string ends with
it (and the suffix is nonempty), otherwise return the string unchanged. -/
def removesuffix (s suf : String) : String :=
  if suf.data.isSuffixOf s.data && !suf.data.isEmpty then
    ⟨s.data.take (s.data.length - suf.data.length)⟩
  else s

/-- The mutable per-instance state of `Gen3MetadataParser`: `self.headers`,
`self.data_store` and `self.data_store_pd` (the latter's values are the
tables produced by `json_to_pd`). -/
structure ClientState : Type where
  headers : List (String × String)
  data_store : List (String × JVal)
  data_store_pd : List (String × List (List (String × JVal)))

/-- Models the external collaborator `pandas.json_normalize` on one nested
record: fields of nested objects are addressed by dotted path; a non-object
record becomes a single anonymous cell. -/
def flattenFields (pre : String) : List (String × JVal) → List (String × JVal)
  | [] => []
  | (k, .jobj fs) :: rest =>
      flattenFields (pre ++ k ++ ".") fs ++ flattenFields pre rest
  | (k, v) :: rest => (pre ++ k, v) :: flattenFields pre rest

/-- One table row per record. -/
def recordRow : JVal → List (String × JVal)
  | .jobj fs => flattenFields "" fs
  | v => [("", v)]

/-- `Gen3MetadataParser.json_to_pd`: pass-through to `pd.json_normalize` —
a list of records becomes one row per record, anything else a single row. -/
def json_to_pd (j : JVal) : List (List (String × JVal)) :=
  match j with
  | .jarr records => records.map recordRow
  | v => [recordRow v]

/-- `Gen3MetadataParser._url_from_jwt`: reads `cred['api_key']`, decodes the
JWT without verifying its signature (the decode is an external collaborator,
so its outcome `decoded` is an explicit input), then returns
`payload.get('iss', '').removesuffix("/user")`.  A missing issuer claim
yields `""`; a non-string issuer would make `.removesuffix` raise
`AttributeError`. -/
def url_from_jwt (cred : List (String × JVal))
    (decoded : Except PyErr (List (String × JVal))) : Except PyErr String :=
  match pyGetItem (.jobj cred) "api_key" with
  | .error e => .error e
  | .ok _tok =>
      match decoded with
      | .error e => .error e
      | .ok payload =>
          match dictGet payload "iss" with
          | none => .ok ""
          | some (.jstr s) => .ok (removesuffix s "/user")
          | some _ => .error .attributeError

/-- `Gen3MetadataParser.authenticate`: load the key (result `loadKey`),
resolve the base URL from the JWT, POST the credential and obtain `resp`,
`raise_for_status`, read `response.json()['access_token']`, and only then
overwrite `self.headers` with the single bearer header.  Every failure is
printed and re-raised, leaving the state untouched; the function returns
`None` (the value of `print(...)`). -/
def authenticate (st : ClientState)
    (loadKey : Except PyErr (List (String × JVal)))
    (decoded : Except PyErr (List (String × JVal)))
    (resp : Response) : ClientState × Except PyErr Unit :=
  match loadKey with
  | .error e => (st, .error e)
  | .ok key =>
      match url_from_jwt key decoded with
      | .error e => (st, .error e)
      | .ok _api_url =>
          match raise_for_status resp with
          | some e => (st, .error e)
          | none =>
              match resp.body with
              | none => (st, .error .valueError)
              | some body =>
                  match pyGetItem body "access_token" with
                  | .error e => (st, .error e)
                  | .ok tok =>
                      ({ st with
                          headers :=
                            [("Authorization", "bearer " ++ pyStr tok)] },
                        .ok ())

/-- The composite `DataStore` key `f"{program_name}/{project_code}/{node_label}"`. -/
def fetchKey (program_name project_code node_label : String) : String :=
  program_name ++ "/" ++ project_code ++ "/" ++ node_label

/-- `Gen3MetadataParser.fetch_data` (current variant): reload the key,
re-derive the URL, GET the export endpoint obtaining `resp`,
`raise_for_status`, parse the body, store it under the composite key, and
return the data when `return_data` is true (`None` otherwise).  Every
failure is printed and re-raised with the state untouched. -/
def fetch_data (st : ClientState)
    (loadKey : Except PyErr (List (String × JVal)))
    (decoded : Except PyErr (List (String × JVal)))
    (resp : Response)
    (program_name project_code node_label : String)
    (return_data : Bool) : ClientState × Except PyErr (Option JVal) :=
  match loadKey with
  | .error e => (st, .error e)
  | .ok creds =>
      match url_from_jwt creds decoded with
      | .error e => (st, .error e)
      | .ok _api_url =>
          match raise_for_status resp with
          | some e => (st, .error e)
          | none =>
              match resp.body with
              | none => (st, .error .valueError)
              | some data =>
                  let key := fetchKey program_name project_code node_label
                  ({ st with data_store := dictSet st.data_store key data },
                    .ok (if return_data then some data else none))

/-- The iteration of `Gen3MetadataParser.data_to_pd` over a (frozen) list of
`data_store` items: each step reads `value['data']`, converts it, and
assigns `self.data_store_pd[key]`; an exception aborts the loop but the
assignments already made remain (in-place mutation is not rolled back). -/
def dataToPdGo : List (String × JVal) → ClientState →
    ClientState × Except PyErr Unit
  | [], st => (st, .ok ())
  | (k, v) :: rest, st =>
      match pyGetItem v "data" with
      | .error e => (st, .error e)
      | .ok d =>
          dataToPdGo rest
            { st with data_store_pd := dictSet st.data_store_pd k (json_to_pd d) }

/-- `Gen3MetadataParser.data_to_pd`: convert every `data_store` entry's
`'data'` field to a table in `data_store_pd`, keyed identically. -/
def data_to_pd (st : ClientState) : ClientState × Except PyErr Unit :=
  dataToPdGo st.data_store st

namespace OldParser

/-- `Gen3MetadataParser.fetch_data` of the older variant (`parser.py`): no
credential reload (the URL was fixed at construction); `HTTPError` and any
other exception are printed and swallowed, so the call returns `None` and
the state is untouched on failure. -/
def fetch_data (st : ClientState) (resp : Response)
    (program_name project_code node_label : String)
    (return_data : Bool) : ClientState × Except PyErr (Option JVal) :=
  match raise_for_status resp with
  | some _e => (st, .ok none)
  | none =>
      match resp.body with
      | none => (st, .ok none)
      | some data =>
          let key := fetchKey program_name project_code node_label
          ({ st with data_store := dictSet st.data_store key data },
            .ok (if return_data then some data else none))

end OldParser

/-! ### Credential loading with tolerant JSON repair

`_load_api_key` reads the key file; if the raw content contains no quote
characters it calls `_add_quotes_to_json`, which first tries a strict parse
and on failure applies two `re.sub` repairs before re-parsing:

  * `re.sub(r'([{,]\s*)(\w+)\s*:', r'\1"\2":', s)` — quote object keys;
  * `re.sub(r':\s*([-A-Za-z0-9._:@/]+)(?=\s*[},])', r': "\1"', s)` — quote
    bare values.

Strings are worked on as `List Char`.  The two substitutions are embedded
as character scanners implementing exactly the leftmost, non-overlapping
`re.sub` semantics of those patterns; for both patterns greedy matching
never needs to backtrack (whitespace, word and value character classes are
pairwise disjoint and exclude the delimiters), so the scanners are
deterministic. -/

/-- Python's `\s` class on the characters that occur here (ASCII whitespace). -/
def isPySpace (c : Char) : Bool :=
  c = ' ' || c = '\t' || c = '\n' || c = '\r' || c = '\x0b' || c = '\x0c'

/-- Python's `\w` class, restricted to ASCII as credential keys are. -/
def isWordChar (c : Char) : Bool := c.isAlphanum || c = '_'

/-- The bare-value class `[-A-Za-z0-9._:@/]` of the second pattern. -/
def isValChar (c : Char) : Bool :=
  c.isAlphanum || c = '.' || c = '_' || c = ':' || c = '@' || c = '/' || c = '-'

/-- Greedy split at the longest initial run satisfying `p` (the semantics
of a greedy `p*` at the head of a match). -/
def spanP (p : Char → Bool) : List Char → List Char × List Char
  | [] => ([], [])
  | c :: l =>
      if p c then
        let (t, r) := spanP p l
        (c :: t, r)
      else ([], c :: l)

theorem spanP_append (p : Char → Bool) (l₁ : List Char) (b : Char)
    (l₂ : List Char) (h₁ : ∀ a ∈ l₁, p a = true) (h₂ : p b = false) :
    spanP p (l₁ ++ b :: l₂) = (l₁, b :: l₂) := by
  induction l₁ with
  | nil => simp [spanP, h₂]
  | cons c l ih =>
      have hc : p c = true := h₁ c (by simp)
      have := ih (fun a ha => h₁ a (by simp [ha]))
      simp [spanP, hc, this]

theorem spanP_join (p : Char → Bool) (l : List Char) :
    (spanP p l).1 ++ (spanP p l).2 = l := by
  induction l with
  | nil => simp [spanP]
  | cons c l ih =>
      by_cases hc : p c = true
      · simp [spanP, hc, ih]
      · simp [spanP, Bool.of_not_eq_true hc]

theorem spanP_length_eq (p : Char → Bool) (l : List Char) :
    (spanP p l).1.length + (spanP p l).2.length = l.length := by
  have h := congrArg List.length (spanP_join p l)
  simpa [List.length_append] using h

theorem spanP_length (p : Char → Bool) (l : List Char) :
    (spanP p l).2.length ≤ l.length := by
  have h := spanP_length_eq p l
  omega

/-- Attempt of the tail `\s*(\w+)\s*:` of the key pattern at the position
right after a `[{,]` trigger: returns the captured leading whitespace, the
key, and the remainder after the colon (the whitespace between key and
colon is consumed and, per the replacement `\1"\2":`, dropped). -/
def tryKeyMatch (l : List Char) :
    Option (List Char × List Char × List Char) :=
  if (spanP isWordChar (spanP isPySpace l).2).1.isEmpty then none
  else
    match (spanP isPySpace (spanP isWordChar (spanP isPySpace l).2).2).2 with
    | ':' :: rest =>
        some ((spanP isPySpace l).1,
          (spanP isWordChar (spanP isPySpace l).2).1, rest)
    | _ => none

theorem tryKeyMatch_length (l ws1 key rest : List Char)
    (h : tryKeyMatch l = some (ws1, key, rest)) : rest.length < l.length := by
  unfold tryKeyMatch at h
  split at h
  · exact absurd h (by simp)
  next hk =>
    split at h
    next rest' heq =>
      obtain ⟨-, -, rfl⟩ : _ ∧ _ ∧ rest' = rest := by simpa using h
      have e1 := spanP_length_eq isPySpace l
      have e2 := spanP_length_eq isWordChar (spanP isPySpace l).2
      have e3 := spanP_length_eq isPySpace
        (spanP isWordChar (spanP isPySpace l).2).2
      have e4 := congrArg List.length heq
      simp only [List.length_cons] at e4
      have hkpos : 0 < (spanP isWordChar (spanP isPySpace l).2).1.length :=
        List.length_pos.mpr (by simpa [List.isEmpty_iff] using hk)
      omega
    next => exact absurd h (by simp)

/-- `re.sub(r'([{,]\s*)(\w+)\s*:', r'\1"\2":', ·)`: scan left to right; at
every `{` or `,` try the rest of the pattern, emit the quoted replacement
on success and continue after the match, otherwise advance one character. -/
def sub1 : List Char → List Char
  | [] => []
  | c :: l =>
      if c = '{' || c = ',' then
        match h : tryKeyMatch l with
        | some (ws1, key, rest) =>
            c :: (ws1 ++ '"' :: (key ++ '"' :: ':' :: sub1 rest))
        | none => c :: sub1 l
      else c :: sub1 l
termination_by l => l.length
decreasing_by
  · exact Nat.lt_trans (tryKeyMatch_length _ _ _ _ h) (Nat.lt_succ_self _)
  · exact Nat.lt_succ_self _
  · exact Nat.lt_succ_self _

/-- The zero-width lookahead `(?=\s*[},])`. -/
def lookaheadOk (l : List Char) : Bool :=
  match (spanP isPySpace l).2 with
  | c :: _ => c = '}' || c = ','
  | [] => false

/-- Attempt of `\s*([-A-Za-z0-9._:@/]+)(?=\s*[},])` right after a `:`
trigger: returns the captured bare value and the remainder after it (the
lookahead consumes nothing; the whitespace after the colon is consumed and,
per the replacement `: "\1"`, collapsed to one space). -/
def tryValMatch (l : List Char) : Option (List Char × List Char) :=
  if (spanP isValChar (spanP isPySpace l).2).1.isEmpty then none
  else if lookaheadOk (spanP isValChar (spanP isPySpace l).2).2 then
    some ((spanP isValChar (spanP isPySpace l).2).1,
      (spanP isValChar (spanP isPySpace l).2).2)
  else none

theorem tryValMatch_length (l v rest : List Char)
    (h : tryValMatch l = some (v, rest)) : rest.length < l.length := by
  unfold tryValMatch at h
  split at h
  · exact absurd h (by simp)
  next hv =>
    split at h
    · have hr : (spanP isValChar (spanP isPySpace l).2).2 = rest := by
        have := congrArg Prod.snd (by simpa using h :
          spanP isValChar (spanP isPySpace l).2 = (v, rest))
        simpa using this
      rw [← hr]
      have e1 := spanP_length_eq isPySpace l
      have e2 := spanP_length_eq isValChar (spanP isPySpace l).2
      have hkpos : 0 < (spanP isValChar (spanP isPySpace l).2).1.length :=
        List.length_pos.mpr (by simpa [List.isEmpty_iff] using hv)
      omega
    · exact absurd h (by simp)

/-- `re.sub(r':\s*([-A-Za-z0-9._:@/]+)(?=\s*[},])', r': "\1"', ·)`: scan
left to right; at every `:` try the rest of the pattern, emit the quoted
replacement on success and continue after the (zero-width-lookahead-free)
match, otherwise advance one character. -/
def sub2 : List Char → List Char
  | [] => []
  | c :: l =>
      if c = ':' then
        match h : tryValMatch l with
        | some (v, rest) => ':' :: ' ' :: '"' :: (v ++ '"' :: sub2 rest)
        | none => c :: sub2 l
      else c :: sub2 l
termination_by l => l.length
decreasing_by
  · exact Nat.lt_trans (tryValMatch_length _ _ _ h) (Nat.lt_succ_self _)
  · exact Nat.lt_succ_self _
  · exact Nat.lt_succ_self _

/-- The composite repair applied by `_add_quotes_to_json` on the strict-parse
failure path: quote keys, then quote bare values. -/
def fixQuotes (l : List Char) : List Char := sub2 (sub1 l)

/-! ### A strict JSON parser for the flat string-valued-object fragment

`json.loads` restricted to the fragment that credential files live in:
an object whose keys and values are plain strings without escapes.  On
every input both this parser and `json.loads` agree up to that fragment
(inputs outside it — unquoted keys, nested values — are rejected by both). -/

/-- Skip JSON whitespace. -/
def skipWs : List Char → List Char
  | c :: l => if isPySpace c then skipWs l else c :: l
  | [] => []

/-- Parse a quoted string literal (no escape sequences, as none occur in
the credential fragment), returning its characters and the remainder. -/
def parseJString (l : List Char) : Option (List Char × List Char) :=
  match l with
  | '"' :: rest =>
      match (spanP (fun c => c != '"') rest).2 with
      | '"' :: r2 => some ((spanP (fun c => c != '"') rest).1, r2)
      | _ => none
  | _ => none

/-- Parse one `"key" : "value"` member, returning the pair and the
remainder. -/
def parsePair (l : List Char) : Option ((String × String) × List Char) :=
  match parseJString (skipWs l) with
  | none => none
  | some (k, r1) =>
      match skipWs r1 with
      | ':' :: r2 =>
          match parseJString (skipWs r2) with
          | none => none
          | some (v, r3) => some ((⟨k⟩, ⟨v⟩), r3)
      | _ => none

/-- Parse the nonempty member list of an object up to and including the
closing brace (`fuel` bounds the recursion; one unit per member suffices). -/
def parseMembers : Nat → List Char → Option (List (String × String) × List Char)
  | 0, _ => none
  | fuel + 1, l =>
      match parsePair l with
      | none => none
      | some (p, r) =>
          match skipWs r with
          | ',' :: r2 =>
              match parseMembers fuel r2 with
              | some (ps, r3) => some (p :: ps, r3)
              | none => none
          | '}' :: r2 => some ([p], r2)
          | _ => none

/-- `json.loads` on the flat string-valued-object fragment: a whole-input
parse of `{"k": "v", ...}` (or `{}`), `none` modelling `JSONDecodeError`. -/
def parseFlatObj (l : List Char) : Option (List (String × String)) :=
  match skipWs l with
  | c :: r =>
      if c = '{' then
        match skipWs r with
        | c2 :: r2 =>
            if c2 = '}' then (if skipWs r2 = [] then some [] else none)
            else
              match parseMembers (r.length + 1) r with
              | some (ps, r3) => if skipWs r3 = [] then some ps else none
              | none => none
        | [] => none
      else none
  | [] => none

/-- `Gen3MetadataParser._add_quotes_to_json`: strict parse first; on failure
apply the two regex repairs and re-parse (`none` models the re-raised
`ValueError`). -/
def addQuotesToJson (l : List Char) : Option (List (String × String)) :=
  match parseFlatObj l with
  | some m => some m
  | none => parseFlatObj (fixQuotes l)

/-- Whether the raw content contains a double or single quote. -/
def hasQuoteChar (l : List Char) : Bool := l.any (fun c => c = '"' || c = '\'')

/-- `Gen3MetadataParser._load_api_key`, given the raw file content: if the
content has no quote characters take the tolerant path through
`_add_quotes_to_json`, otherwise parse strictly (`none` models the
re-raised exceptions). -/
def loadApiKey (content : List Char) : Option (List (String × String)) :=
  if !hasQuoteChar content then addQuotesToJson content
  else parseFlatObj content

/-! ### Renderings of a credential mapping

`renderUnquoted` is the relaxed credential file the tolerant loader is fed
(`{k1: v1, k2: v2}`); `renderMid` is its image under the key-quoting
substitution; `renderQuoted` is the properly quoted strict-JSON version. -/

/-- One unquoted `key: value` segment. -/
def segU (k v : String) : List Char := k.data ++ ':' :: ' ' :: v.data

/-- The remaining `, key: value` segments. -/
def restU : List (String × String) → List Char
  | [] => []
  | (k, v) :: ps => ',' :: ' ' :: (segU k v ++ restU ps)

/-- The unquoted credential file for a mapping. -/
def renderUnquoted : List (String × String) → List Char
  | [] => ['{', '}']
  | (k, v) :: ps => '{' :: (segU k v ++ restU ps) ++ ['}']

/-- One `"key": value` segment (key quoted, value still bare). -/
def segM (k v : String) : List Char :=
  '"' :: (k.data ++ '"' :: ':' :: ' ' :: v.data)

/-- The remaining `, "key": value` segments. -/
def restM : List (String × String) → List Char
  | [] => []
  | (k, v) :: ps => ',' :: ' ' :: (segM k v ++ restM ps)

/-- The key-quoted, value-bare intermediate file for a mapping. -/
def renderMid : List (String × String) → List Char
  | [] => ['{', '}']
  | (k, v) :: ps => '{' :: (segM k v ++ restM ps) ++ ['}']

/-- One `"key": "value"` segment. -/
def segQ (k v : String) : List Char :=
  '"' :: (k.data ++ '"' :: ':' :: ' ' :: '"' :: (v.data ++ ['"']))

/-- The remaining `, "key": "value"` segments. -/
def restQ : List (String × String) → List Char
  | [] => []
  | (k, v) :: ps => ',' :: ' ' :: (segQ k v ++ restQ ps)

/-- The properly quoted strict-JSON credential file for a mapping. -/
def renderQuoted : List (String × String) → List Char
  | [] => ['{', '}']
  | (k, v) :: ps => '{' :: (segQ k v ++ restQ ps) ++ ['}']

/-- A well-formed bare credential pair: a nonempty `\w+` key and a nonempty
`[-A-Za-z0-9._:@/]+` value. -/
def validPair (p : String × String) : Bool :=
  !p.1.data.isEmpty && p.1.data.all isWordChar &&
    (!p.2.data.isEmpty && p.2.data.all isValChar)

/-- All pairs of a bare credential mapping are well formed. -/
def validPairs (ps : List (String × String)) : Bool := ps.all validPair

/-- Whether every `data_store_pd` key has a `data_store` entry (the
TableStore-implies-DataStore invariant). -/
def storeInv (st : ClientState) : Bool :=
  st.data_store_pd.all (fun p => (dictGet st.data_store p.1).isSome)

/-! ### Character-class facts -/

theorem isPySpace_cases (c : Char) (h : isPySpace c = true) :
    c = ' ' ∨ c = '\t' ∨ c = '\n' ∨ c = '\r' ∨ c = '\x0b' ∨ c = '\x0c' := by
  unfold isPySpace at h
  simp only [Bool.or_eq_true, decide_eq_true_eq] at h
  tauto

theorem word_not_space (c : Char) (h : isWordChar c = true) :
    isPySpace c = false := by
  cases hs : isPySpace c
  · rfl
  · exfalso
    rcases isPySpace_cases c hs with rfl | rfl | rfl | rfl | rfl | rfl <;>
      exact absurd h (by decide)

theorem val_not_space (c : Char) (h : isValChar c = true) :
    isPySpace c = false := by
  cases hs : isPySpace c
  · rfl
  · exfalso
    rcases isPySpace_cases c hs with rfl | rfl | rfl | rfl | rfl | rfl <;>
      exact absurd h (by decide)

theorem word_ne_chars (c : Char) (h : isWordChar c = true) :
    c ≠ '{' ∧ c ≠ ',' ∧ c ≠ ':' ∧ c ≠ '"' ∧ c ≠ '\'' ∧ c ≠ '}' := by
  refine ⟨?_, ?_, ?_, ?_, ?_, ?_⟩ <;>
    · rintro rfl
      exact absurd h (by decide)

theorem val_ne_chars (c : Char) (h : isValChar c = true) :
    c ≠ '{' ∧ c ≠ ',' ∧ c ≠ '}' ∧ c ≠ '"' ∧ c ≠ '\'' := by
  refine ⟨?_, ?_, ?_, ?_, ?_⟩ <;>
    · rintro rfl
      exact absurd h (by decide)

theorem validPair_props (k v : String) (h : validPair (k, v) = true) :
    k.data ≠ [] ∧ (∀ c ∈ k.data, isWordChar c = true) ∧
      v.data ≠ [] ∧ (∀ c ∈ v.data, isValChar c = true) := by
  unfold validPair at h
  simp only [Bool.and_eq_true, Bool.not_eq_true'] at h
  obtain ⟨⟨hk1, hk2⟩, hv1, hv2⟩ := h
  refine ⟨?_, ?_, ?_, ?_⟩
  · intro he; rw [he] at hk1; exact absurd hk1 (by decide)
  · exact fun c hc => by
      have := List.all_eq_true.mp hk2 c hc
      simpa using this
  · intro he; rw [he] at hv1; exact absurd hv1 (by decide)
  · exact fun c hc => by
      have := List.all_eq_true.mp hv2 c hc
      simpa using this

theorem validPairs_cons (k v : String) (tl : List (String × String))
    (h : validPairs ((k, v) :: tl) = true) :
    validPair (k, v) = true ∧ validPairs tl = true := by
  unfold validPairs at *
  simpa using h

/-! ### Behaviour of the two substitution scanners -/

theorem sub1_nil : sub1 [] = [] := by
  rw [sub1.eq_def]

theorem sub1_cons_nontrigger (c : Char) (l : List Char)
    (h : (c = '{' || c = ',') = false) : sub1 (c :: l) = c :: sub1 l := by
  conv_lhs => rw [sub1.eq_def]
  simp [h]

theorem sub1_cons_trigger (c : Char) (l ws1 key rest : List Char)
    (hc : (c = '{' || c = ',') = true)
    (hm : tryKeyMatch l = some (ws1, key, rest)) :
    sub1 (c :: l) = c :: (ws1 ++ '"' :: (key ++ '"' :: ':' :: sub1 rest)) := by
  conv_lhs => rw [sub1.eq_def]
  simp only [hc, if_true]
  split
  next ws' key' rest' heq =>
    rw [hm] at heq
    obtain ⟨rfl, rfl, rfl⟩ : ws1 = ws' ∧ key = key' ∧ rest = rest' := by
      simpa using heq
    rfl
  next heq =>
    rw [hm] at heq
    exact absurd heq (by simp)

theorem sub1_cons_trigger_none (c : Char) (l : List Char)
    (hc : (c = '{' || c = ',') = true)
    (hm : tryKeyMatch l = none) : sub1 (c :: l) = c :: sub1 l := by
  conv_lhs => rw [sub1.eq_def]
  simp only [hc, if_true]
  split
  next ws' key' rest' heq => rw [hm] at heq; exact absurd heq (by simp)
  next => rfl

theorem sub1_skip (l r : List Char)
    (h : ∀ c ∈ l, c ≠ '{' ∧ c ≠ ',') : sub1 (l ++ r) = l ++ sub1 r := by
  induction l with
  | nil => simp
  | cons c l' ih =>
      have hc := h c (List.mem_cons_self _ _)
      rw [List.cons_append,
        sub1_cons_nontrigger c _ (by simp [hc.1, hc.2]),
        ih (fun a ha => h a (List.mem_cons_of_mem _ ha))]
      rfl

theorem tryKeyMatch_shape (ws key R : List Char)
    (hws : ∀ c ∈ ws, isPySpace c = true)
    (hk : key ≠ []) (hkw : ∀ c ∈ key, isWordChar c = true) :
    tryKeyMatch (ws ++ (key ++ ':' :: R)) = some (ws, key, R) := by
  have h1 : spanP isPySpace (ws ++ (key ++ ':' :: R)) = (ws, key ++ ':' :: R) := by
    cases key with
    | nil => exact absurd rfl hk
    | cons c key' =>
        have he : ws ++ ((c :: key') ++ ':' :: R)
            = ws ++ c :: (key' ++ ':' :: R) := by simp
        rw [he]
        exact spanP_append _ _ _ _ hws
          (word_not_space c (hkw c (List.mem_cons_self _ _)))
  have h2 : spanP isWordChar (key ++ ':' :: R) = (key, ':' :: R) :=
    spanP_append _ _ _ _ hkw (by decide)
  have h3 : spanP isPySpace ([] ++ ':' :: R) = ([], ':' :: R) :=
    spanP_append _ _ _ _ (by simp) (by decide)
  have hke : key.isEmpty = false := by
    cases key with
    | nil => exact absurd rfl hk
    | cons _ _ => rfl
  unfold tryKeyMatch
  rw [h1]
  simp only [h2, h3, List.nil_append, hke]
  rfl

theorem sub1_skip_value (v : String) (X : List Char)
    (hv : ∀ c ∈ v.data, isValChar c = true) :
    sub1 (' ' :: (v.data ++ X)) = ' ' :: (v.data ++ sub1 X) := by
  have h := sub1_skip (' ' :: v.data) X (by
    intro c hc
    rcases List.mem_cons.mp hc with rfl | hc
    · exact ⟨by decide, by decide⟩
    · have h2 := val_ne_chars c (hv c hc)
      exact ⟨h2.1, h2.2.1⟩)
  simpa using h

theorem sub1_restU (tl : List (String × String)) (h : validPairs tl = true) :
    sub1 (restU tl ++ ['}']) = restM tl ++ ['}'] := by
  induction tl with
  | nil =>
      show sub1 ['}'] = ['}']
      rw [sub1_cons_nontrigger '}' [] (by decide), sub1_nil]
  | cons p tl' ih =>
      obtain ⟨k, v⟩ := p
      obtain ⟨hp, htl⟩ := validPairs_cons k v tl' h
      obtain ⟨hk1, hk2, hv1, hv2⟩ := validPair_props k v hp
      have hm : tryKeyMatch (' ' :: (k.data ++ ':' ::
          (' ' :: (v.data ++ (restU tl' ++ ['}'])))))
          = some ([' '], k.data, ' ' :: (v.data ++ (restU tl' ++ ['}']))) := by
        have hs := tryKeyMatch_shape [' '] k.data
          (' ' :: (v.data ++ (restU tl' ++ ['}'])))
          (by intro c hc; simp at hc; subst hc; rfl) hk1 hk2
        simpa using hs
      have he : restU ((k, v) :: tl') ++ ['}']
          = ',' :: (' ' :: (k.data ++ ':' ::
              (' ' :: (v.data ++ (restU tl' ++ ['}']))))) := by
        simp [restU, segU]
      rw [he, sub1_cons_trigger ',' _ _ _ _ (by decide) hm,
        sub1_skip_value v _ hv2, ih htl]
      simp [restM, segM]

theorem sub1_renderU (ps : List (String × String)) (h : validPairs ps = true) :
    sub1 (renderUnquoted ps) = renderMid ps := by
  cases ps with
  | nil =>
      show sub1 ['{', '}'] = ['{', '}']
      rw [sub1_cons_trigger_none '{' ['}'] (by decide) (by decide),
        sub1_cons_nontrigger '}' [] (by decide), sub1_nil]
  | cons p tl =>
      obtain ⟨k, v⟩ := p
      obtain ⟨hp, htl⟩ := validPairs_cons k v tl h
      obtain ⟨hk1, hk2, hv1, hv2⟩ := validPair_props k v hp
      have hm : tryKeyMatch (k.data ++ ':' ::
          (' ' :: (v.data ++ (restU tl ++ ['}']))))
          = some ([], k.data, ' ' :: (v.data ++ (restU tl ++ ['}']))) := by
        have hs := tryKeyMatch_shape [] k.data
          (' ' :: (v.data ++ (restU tl ++ ['}']))) (by simp) hk1 hk2
        simpa using hs
      have he : renderUnquoted ((k, v) :: tl)
          = '{' :: (k.data ++ ':' ::
              (' ' :: (v.data ++ (restU tl ++ ['}'])))) := by
        simp [renderUnquoted, segU]
      rw [he, sub1_cons_trigger '{' _ _ _ _ (by decide) hm,
        sub1_skip_value v _ hv2, sub1_restU tl htl]
      simp [renderMid, segM]

theorem sub2_nil : sub2 [] = [] := by
  rw [sub2.eq_def]

theorem sub2_cons_nontrigger (c : Char) (l : List Char)
    (h : (c = ':') = false) : sub2 (c :: l) = c :: sub2 l := by
  conv_lhs => rw [sub2.eq_def]
  simp [h]

theorem sub2_cons_trigger (l v rest : List Char)
    (hm : tryValMatch l = some (v, rest)) :
    sub2 (':' :: l) = ':' :: ' ' :: '"' :: (v ++ '"' :: sub2 rest) := by
  conv_lhs => rw [sub2.eq_def]
  simp only [decide_True, if_true]
  split
  next v' rest' heq =>
    rw [hm] at heq
    obtain ⟨rfl, rfl⟩ : v = v' ∧ rest = rest' := by simpa using heq
    rfl
  next heq =>
    rw [hm] at heq
    exact absurd heq (by simp)

theorem sub2_skip (l r : List Char)
    (h : ∀ c ∈ l, c ≠ ':') : sub2 (l ++ r) = l ++ sub2 r := by
  induction l with
  | nil => simp
  | cons c l' ih =>
      have hc := h c (List.mem_cons_self _ _)
      rw [List.cons_append, sub2_cons_nontrigger c _ (by simp [hc]),
        ih (fun a ha => h a (List.mem_cons_of_mem _ ha))]
      rfl

theorem tryValMatch_shape (ws v : List Char) (d : Char) (R : List Char)
    (hws : ∀ c ∈ ws, isPySpace c = true)
    (hv1 : v ≠ []) (hv2 : ∀ c ∈ v, isValChar c = true)
    (hd : d = '}' ∨ d = ',') :
    tryValMatch (ws ++ (v ++ d :: R)) = some (v, d :: R) := by
  have hdns : isPySpace d = false := by rcases hd with rfl | rfl <;> decide
  have hdnv : isValChar d = false := by rcases hd with rfl | rfl <;> decide
  have h1 : spanP isPySpace (ws ++ (v ++ d :: R)) = (ws, v ++ d :: R) := by
    cases v with
    | nil => exact absurd rfl hv1
    | cons c v' =>
        have he : ws ++ ((c :: v') ++ d :: R) = ws ++ c :: (v' ++ d :: R) := by
          simp
        rw [he]
        exact spanP_append _ _ _ _ hws
          (val_not_space c (hv2 c (List.mem_cons_self _ _)))
  have h2 : spanP isValChar (v ++ d :: R) = (v, d :: R) :=
    spanP_append _ _ _ _ hv2 hdnv
  have hve : v.isEmpty = false := by
    cases v with
    | nil => exact absurd rfl hv1
    | cons _ _ => rfl
  have hla : lookaheadOk (d :: R) = true := by
    unfold lookaheadOk
    rw [show spanP isPySpace (d :: R) = ([], d :: R) from
      spanP_append _ [] _ _ (by simp) hdns]
    rcases hd with rfl | rfl <;> rfl
  unfold tryValMatch
  rw [h1]
  simp only [h2, hve, hla]
  rfl

theorem restM_shape (tl : List (String × String)) :
    ∃ d R, restM tl ++ ['}'] = d :: R ∧ (d = '}' ∨ d = ',') := by
  cases tl with
  | nil => exact ⟨'}', [], rfl, .inl rfl⟩
  | cons q tl' =>
      obtain ⟨k, v⟩ := q
      exact ⟨',', (' ' :: (segM k v ++ restM tl')) ++ ['}'],
        by simp [restM], .inr rfl⟩

theorem sub2_skip_keypart (c : Char) (k : String) (X : List Char)
    (hc : (c = ':') = false)
    (hk : ∀ a ∈ k.data, isWordChar a = true) :
    sub2 (c :: (' ' :: ('"' :: (k.data ++ '"' :: X))))
      = c :: (' ' :: ('"' :: (k.data ++ '"' :: sub2 X))) := by
  have h := sub2_skip (c :: ' ' :: '"' :: (k.data ++ ['"'])) X (by
    intro a ha
    rcases List.mem_cons.mp ha with rfl | ha
    · intro hh; rw [hh] at hc; exact absurd hc (by decide)
    rcases List.mem_cons.mp ha with rfl | ha
    · decide
    rcases List.mem_cons.mp ha with rfl | ha
    · decide
    rcases List.mem_append.mp ha with ha | ha
    · exact (word_ne_chars a (hk a ha)).2.2.1
    · simp at ha; subst ha; decide)
  simpa using h

theorem sub2_restM (tl : List (String × String)) (h : validPairs tl = true) :
    sub2 (restM tl ++ ['}']) = restQ tl ++ ['}'] := by
  induction tl with
  | nil =>
      show sub2 ['}'] = ['}']
      rw [sub2_cons_nontrigger '}' [] (by decide), sub2_nil]
  | cons p tl' ih =>
      obtain ⟨k, v⟩ := p
      obtain ⟨hp, htl⟩ := validPairs_cons k v tl' h
      obtain ⟨hk1, hk2, hv1, hv2⟩ := validPair_props k v hp
      obtain ⟨d, R, hdr, hd⟩ := restM_shape tl'
      have hm : tryValMatch (' ' :: (v.data ++ (d :: R)))
          = some (v.data, d :: R) := by
        have hs := tryValMatch_shape [' '] v.data d R
          (by intro c hc; simp at hc; subst hc; rfl) hv1 hv2 hd
        simpa using hs
      have he : restM ((k, v) :: tl') ++ ['}']
          = ',' :: (' ' :: ('"' :: (k.data ++ '"' ::
              (':' :: (' ' :: (v.data ++ (d :: R))))))) := by
        rw [show restM ((k, v) :: tl') ++ ['}']
            = ',' :: ' ' :: (segM k v ++ (restM tl' ++ ['}'])) by
          simp [restM]]
        rw [hdr]
        simp [segM]
      rw [he, sub2_skip_keypart ',' k _ (by decide) hk2,
        sub2_cons_trigger _ _ _ hm, ← hdr, ih htl]
      simp [restQ, segQ]

theorem sub2_renderMid (ps : List (String × String))
    (h : validPairs ps = true) :
    sub2 (renderMid ps) = renderQuoted ps := by
  cases ps with
  | nil =>
      show sub2 ['{', '}'] = ['{', '}']
      rw [sub2_cons_nontrigger '{' ['}'] (by decide),
        sub2_cons_nontrigger '}' [] (by decide), sub2_nil]
  | cons p tl =>
      obtain ⟨k, v⟩ := p
      obtain ⟨hp, htl⟩ := validPairs_cons k v tl h
      obtain ⟨hk1, hk2, hv1, hv2⟩ := validPair_props k v hp
      obtain ⟨d, R, hdr, hd⟩ := restM_shape tl
      have hm : tryValMatch (' ' :: (v.data ++ (d :: R)))
          = some (v.data, d :: R) := by
        have hs := tryValMatch_shape [' '] v.data d R
          (by intro c hc; simp at hc; subst hc; rfl) hv1 hv2 hd
        simpa using hs
      have he : renderMid ((k, v) :: tl)
          = '{' :: ('"' :: (k.data ++ '"' ::
              (':' :: (' ' :: (v.data ++ (d :: R)))))) := by
        rw [show renderMid ((k, v) :: tl)
            = '{' :: (segM k v ++ (restM tl ++ ['}'])) by
          simp [renderMid]]
        rw [hdr]
        simp [segM]
      have hskip : sub2 ('{' :: ('"' :: (k.data ++ '"' ::
          (':' :: (' ' :: (v.data ++ (d :: R)))))))
          = '{' :: ('"' :: (k.data ++ '"' ::
              sub2 (':' :: (' ' :: (v.data ++ (d :: R)))))) := by
        have hs := sub2_skip ('{' :: '"' :: (k.data ++ ['"']))
          (':' :: (' ' :: (v.data ++ (d :: R)))) (by
            intro a ha
            rcases List.mem_cons.mp ha with rfl | ha
            · decide
            rcases List.mem_cons.mp ha with rfl | ha
            · decide
            rcases List.mem_append.mp ha with ha | ha
            · exact (word_ne_chars a (hk2 a ha)).2.2.1
            · simp at ha; subst ha; decide)
        simpa using hs
      rw [he, hskip, sub2_cons_trigger _ _ _ hm, ← hdr, sub2_restM tl htl]
      simp [renderQuoted, segQ]

theorem fixQuotes_renderU (ps : List (String × String))
    (h : validPairs ps = true) :
    fixQuotes (renderUnquoted ps) = renderQuoted ps := by
  unfold fixQuotes
  rw [sub1_renderU ps h, sub2_renderMid ps h]

/-! ### Behaviour of the strict flat-object parser -/

theorem skipWs_cons_nospace (c : Char) (l : List Char)
    (h : isPySpace c = false) : skipWs (c :: l) = c :: l := by
  simp [skipWs, h]

theorem parseJString_lit (s rest : List Char) (h : ∀ c ∈ s, c ≠ '"') :
    parseJString ('"' :: (s ++ '"' :: rest)) = some (s, rest) := by
  have hsp : spanP (fun c => c != '"') (s ++ '"' :: rest) = (s, '"' :: rest) :=
    spanP_append _ _ _ _ (fun a ha => by simpa using h a ha) (by decide)
  simp [parseJString, hsp]

theorem parseJString_not_quote (c : Char) (l : List Char) (h : c ≠ '"') :
    parseJString (c :: l) = none := by
  simp [parseJString, h]

theorem parsePair_seg (k v : String) (rest : List Char)
    (hk : ∀ c ∈ k.data, isWordChar c = true)
    (hv : ∀ c ∈ v.data, isValChar c = true) :
    parsePair (segQ k v ++ rest) = some ((k, v), rest) := by
  have he : segQ k v ++ rest
      = '"' :: (k.data ++ '"' ::
          (':' :: (' ' :: ('"' :: (v.data ++ '"' :: rest))))) := by
    simp [segQ]
  have h1 := parseJString_lit k.data
    (':' :: (' ' :: ('"' :: (v.data ++ '"' :: rest))))
    (fun c hc => (word_ne_chars c (hk c hc)).2.2.2.1)
  have h2 := parseJString_lit v.data rest
    (fun c hc => (val_ne_chars c (hv c hc)).2.2.2.1)
  simp [parsePair, he, skipWs, isPySpace, h1, h2]

theorem parsePair_not_quote (c : Char) (l : List Char)
    (hs : isPySpace c = false) (h : c ≠ '"') : parsePair (c :: l) = none := by
  unfold parsePair
  rw [skipWs_cons_nospace c l hs, parseJString_not_quote c l h]

theorem parsePair_cons_space (l : List Char) :
    parsePair (' ' :: l) = parsePair l := by
  simp [parsePair, skipWs, isPySpace]

theorem parseMembers_cons_space (fuel : Nat) (l : List Char) :
    parseMembers fuel (' ' :: l) = parseMembers fuel l := by
  cases fuel with
  | zero => rfl
  | succ f => simp [parseMembers, parsePair_cons_space]

theorem parseMembers_render (ps : List (String × String)) (k v : String)
    (fuel : Nat) (h : validPairs ((k, v) :: ps) = true)
    (hf : ps.length < fuel) :
    parseMembers fuel (segQ k v ++ (restQ ps ++ ['}']))
      = some ((k, v) :: ps, []) := by
  induction ps generalizing k v fuel with
  | nil =>
      cases fuel with
      | zero => exact absurd hf (by simp)
      | succ f =>
          obtain ⟨hp, _⟩ := validPairs_cons k v _ h
          obtain ⟨hk1, hk2, hv1, hv2⟩ := validPair_props k v hp
          have hpp := parsePair_seg k v ['}'] hk2 hv2
          simp [parseMembers, hpp, restQ, skipWs, isPySpace]
  | cons p2 tl ih =>
      obtain ⟨k2, v2⟩ := p2
      cases fuel with
      | zero => exact absurd hf (by simp)
      | succ f =>
          obtain ⟨hp, htl⟩ := validPairs_cons k v _ h
          obtain ⟨hk1, hk2, hv1, hv2⟩ := validPair_props k v hp
          have hpp := parsePair_seg k v
            (',' :: (' ' :: (segQ k2 v2 ++ (restQ tl ++ ['}'])))) hk2 hv2
          have hr : restQ ((k2, v2) :: tl) ++ ['}']
              = ',' :: (' ' :: (segQ k2 v2 ++ (restQ tl ++ ['}']))) := by
            simp [restQ]
          have hih := ih k2 v2 f htl (by simp at hf; omega)
          simp [parseMembers, hpp, hr, skipWs, isPySpace,
            parseMembers_cons_space, hih]

theorem restQ_len (ps : List (String × String)) :
    ps.length ≤ (restQ ps).length := by
  induction ps with
  | nil => simp [restQ]
  | cons p tl ih =>
      obtain ⟨k, v⟩ := p
      simp only [restQ, List.length_cons, List.length_append]
      omega

theorem parseFlatObj_renderQ (ps : List (String × String))
    (h : validPairs ps = true) : parseFlatObj (renderQuoted ps) = some ps := by
  cases ps with
  | nil => rfl
  | cons p tl =>
      obtain ⟨k, v⟩ := p
      have hren : renderQuoted ((k, v) :: tl)
          = '{' :: (segQ k v ++ (restQ tl ++ ['}'])) := by
        simp [renderQuoted]
      have hseg : segQ k v ++ (restQ tl ++ ['}'])
          = '"' :: (k.data ++ '"' :: (':' :: (' ' ::
              ('"' :: (v.data ++ '"' :: (restQ tl ++ ['}'])))))) := by
        simp [segQ]
      have hsw : skipWs (segQ k v ++ (restQ tl ++ ['}']))
          = '"' :: (k.data ++ '"' :: (':' :: (' ' ::
              ('"' :: (v.data ++ '"' :: (restQ tl ++ ['}'])))))) := by
        rw [hseg]
        exact skipWs_cons_nospace _ _ (by decide)
      have hfuel : tl.length
          < (segQ k v ++ (restQ tl ++ ['}'])).length + 1 := by
        have hrl := restQ_len tl
        simp only [List.length_append]
        omega
      have hpm := parseMembers_render tl k v
        ((segQ k v ++ (restQ tl ++ ['}'])).length + 1) h hfuel
      unfold parseFlatObj
      rw [hren, skipWs_cons_nospace '{' _ (by decide)]
      dsimp only
      rw [if_pos rfl, hsw]
      dsimp only
      rw [if_neg (by decide), hpm]
      dsimp only
      rw [if_pos (by simp [skipWs])]

theorem parseFlatObj_renderU_cons_none (k v : String)
    (tl : List (String × String))
    (h : validPairs ((k, v) :: tl) = true) :
    parseFlatObj (renderUnquoted ((k, v) :: tl)) = none := by
  obtain ⟨hp, htl⟩ := validPairs_cons k v tl h
  obtain ⟨hk1, hk2, hv1, hv2⟩ := validPair_props k v hp
  obtain ⟨c, k', hkd⟩ : ∃ c k', k.data = c :: k' := by
    cases hkd : k.data with
    | nil => exact absurd hkd hk1
    | cons c k' => exact ⟨c, k', rfl⟩
  have hcw : isWordChar c = true :=
    hk2 c (by rw [hkd]; exact List.mem_cons_self _ _)
  have hcs : isPySpace c = false := word_not_space c hcw
  have hcq : c ≠ '"' := (word_ne_chars c hcw).2.2.2.1
  have hcb : c ≠ '}' := (word_ne_chars c hcw).2.2.2.2.2
  have hren : renderUnquoted ((k, v) :: tl)
      = '{' :: (c :: (k' ++ ':' ::
          (' ' :: (v.data ++ (restU tl ++ ['}']))))) := by
    simp [renderUnquoted, segU, hkd]
  have hpm : ∀ fuel X, parseMembers (fuel + 1) (c :: X) = none := by
    intro fuel X
    simp [parseMembers, parsePair_not_quote c X hcs hcq]
  unfold parseFlatObj
  rw [hren, skipWs_cons_nospace '{' _ (by decide)]
  dsimp only
  rw [if_pos rfl, skipWs_cons_nospace c _ hcs]
  dsimp only
  rw [if_neg hcb, hpm]

/-! ### No quote characters in the bare rendering -/

/-- No double or single quote occurs among these characters. -/
def NQ (l : List Char) : Prop := ∀ c ∈ l, (c = '"' || c = '\'') = false

theorem NQ_nil : NQ [] := by intro c hc; simp at hc

theorem NQ_cons (c : Char) (l : List Char)
    (hc : (c = '"' || c = '\'') = false) (h : NQ l) : NQ (c :: l) := by
  intro a ha
  rcases List.mem_cons.mp ha with rfl | ha
  · exact hc
  · exact h a ha

theorem NQ_append (l1 l2 : List Char) (h1 : NQ l1) (h2 : NQ l2) :
    NQ (l1 ++ l2) := by
  intro a ha
  rcases List.mem_append.mp ha with ha | ha
  · exact h1 a ha
  · exact h2 a ha

theorem NQ_word (k : List Char) (h : ∀ c ∈ k, isWordChar c = true) : NQ k := by
  intro a ha
  have hw := word_ne_chars a (h a ha)
  simp [hw.2.2.2.1, hw.2.2.2.2.1]

theorem NQ_val (k : List Char) (h : ∀ c ∈ k, isValChar c = true) : NQ k := by
  intro a ha
  have hw := val_ne_chars a (h a ha)
  simp [hw.2.2.2.1, hw.2.2.2.2]

theorem NQ_segU (k v : String) (hp : validPair (k, v) = true) :
    NQ (segU k v) := by
  obtain ⟨hk1, hk2, hv1, hv2⟩ := validPair_props k v hp
  exact NQ_append _ _ (NQ_word _ hk2)
    (NQ_cons ':' _ (by decide) (NQ_cons ' ' _ (by decide) (NQ_val _ hv2)))

theorem NQ_restU (tl : List (String × String)) (h : validPairs tl = true) :
    NQ (restU tl) := by
  induction tl with
  | nil => exact NQ_nil
  | cons p tl' ih =>
      obtain ⟨k, v⟩ := p
      obtain ⟨hp, htl⟩ := validPairs_cons k v tl' h
      exact NQ_cons ',' _ (by decide) (NQ_cons ' ' _ (by decide)
        (NQ_append _ _ (NQ_segU k v hp) (ih htl)))

theorem renderU_noquote (ps : List (String × String))
    (h : validPairs ps = true) :
    hasQuoteChar (renderUnquoted ps) = false := by
  have hnq : NQ (renderUnquoted ps) := by
    cases ps with
    | nil =>
        intro c hc
        simp only [renderUnquoted, List.mem_cons, List.mem_singleton] at hc
        rcases hc with rfl | hc
        · decide
        · simp at hc; subst hc; decide
    | cons p tl =>
        obtain ⟨k, v⟩ := p
        obtain ⟨hp, htl⟩ := validPairs_cons k v tl h
        exact NQ_cons '{' _ (by decide)
          (NQ_append _ _
            (NQ_append _ _ (NQ_segU k v hp) (NQ_restU tl htl))
            (NQ_cons '}' _ (by decide) NQ_nil))
  cases hq : hasQuoteChar (renderUnquoted ps)
  · rfl
  · exfalso
    obtain ⟨c, hc, hcq⟩ := List.any_eq_true.mp hq
    exact absurd hcq (by simp [hnq c hc])

/-! ### Association-list (Python dict) lemmas -/

theorem dictGet_dictSet_self {α : Type} (d : List (String × α)) (k : String)
    (v : α) : dictGet (dictSet d k v) k = some v := by
  induction d with
  | nil => simp [dictSet, dictGet]
  | cons p rest ih =>
      obtain ⟨k', v'⟩ := p
      by_cases h : k' = k
      · subst h; simp [dictSet, dictGet]
      · simp [dictSet, dictGet, h, ih]

theorem dictGet_dictSet_ne {α : Type} (d : List (String × α)) (k k'' : String)
    (v : α) (h : k'' ≠ k) : dictGet (dictSet d k v) k'' = dictGet d k'' := by
  have h' : k ≠ k'' := Ne.symm h
  induction d with
  | nil => simp [dictSet, dictGet, h']
  | cons p rest ih =>
      obtain ⟨k', v'⟩ := p
      by_cases h1 : k' = k
      · subst h1; simp [dictSet, dictGet, h']
      · simp [dictSet, dictGet, h1, ih]

theorem keys_dictSet {α : Type} (d : List (String × α)) (k : String) (v : α) :
    (dictSet d k v).map Prod.fst =
      if (d.map Prod.fst).contains k then d.map Prod.fst
      else d.map Prod.fst ++ [k] := by
  induction d with
  | nil => simp [dictSet]
  | cons p rest ih =>
      obtain ⟨k', v'⟩ := p
      by_cases h : k' = k
      · subst h; simp [dictSet]
      · have hb : (k == k') = false := beq_eq_false_iff_ne.mpr (Ne.symm h)
        simp only [dictSet, if_neg h, List.map_cons, ih, List.contains_cons,
          hb, Bool.false_or]
        by_cases hc : (rest.map Prod.fst).contains k = true
        · rw [if_pos hc, if_pos hc]
        · rw [if_neg hc, if_neg hc]; rfl

theorem mem_dictSet {α : Type} {d : List (String × α)} {k : String} {v : α}
    {p : String × α} (h : p ∈ dictSet d k v) : p.1 = k ∨ p ∈ d := by
  induction d with
  | nil =>
      simp only [dictSet, List.mem_singleton] at h
      subst h; exact .inl rfl
  | cons q rest ih =>
      obtain ⟨k', v'⟩ := q
      by_cases h' : k' = k
      · subst h'
        simp [dictSet] at h
        cases h with
        | inl h1 => exact .inl (by rw [h1])
        | inr h1 => exact .inr (List.mem_cons_of_mem _ h1)
      · simp [dictSet, h'] at h
        cases h with
        | inl h1 => exact .inr (by rw [h1]; exact List.mem_cons_self _ _)
        | inr h1 =>
            cases ih h1 with
            | inl h2 => exact .inl h2
            | inr h2 => exact .inr (List.mem_cons_of_mem _ h2)

theorem dictGet_isSome_of_mem {α : Type} {d : List (String × α)}
    {p : String × α} (h : p ∈ d) : (dictGet d p.1).isSome = true := by
  induction d with
  | nil => simp at h
  | cons q rest ih =>
      obtain ⟨k', v'⟩ := q
      rcases List.mem_cons.mp h with h | h
      · subst h; simp [dictGet]
      · by_cases h' : k' = p.1 <;> simp [dictGet, h', ih h]

theorem dictGet_dictSet_isSome {α : Type} (d : List (String × α))
    (k k' : String) (v : α) (h : (dictGet d k').isSome = true) :
    (dictGet (dictSet d k v) k').isSome = true := by
  by_cases he : k' = k
  · subst he; simp [dictGet_dictSet_self]
  · rwa [dictGet_dictSet_ne d k k' v he]

/-! ### HTTP status helpers -/

theorem raise_for_status_none_of_2xx (r : Response)
    (h : is2xx r.status_code = true) : raise_for_status r = none := by
  unfold is2xx at h
  simp only [Bool.and_eq_true, decide_eq_true_eq] at h
  unfold raise_for_status
  rw [if_neg (by omega)]

theorem raise_for_status_4xx5xx (r : Response) (h4 : 400 ≤ r.status_code)
    (h6 : r.status_code < 600) :
    raise_for_status r = some (.httpError r.status_code) := by
  unfold raise_for_status
  rw [if_pos ⟨h4, h6⟩]

/-! ### Claims about authentication (C3, C4, C5) -/

/-- C3: for every authenticate call whose 2xx response body contains an
`access_token` field with string value `t`, the resulting state is exactly
the prior state with `headers` replaced wholesale by
`{"Authorization": "bearer t"}`, and the call succeeds. -/
theorem claim3_auth_success_replaces_headers (st : ClientState)
    (key fields : List (String × JVal))
    (decoded : Except PyErr (List (String × JVal))) (resp : Response)
    (u t : String)
    (hu : url_from_jwt key decoded = .ok u)
    (h2xx : is2xx resp.status_code = true)
    (hb : resp.body = some (.jobj fields))
    (ht : dictGet fields "access_token" = some (.jstr t)) :
    authenticate st (.ok key) decoded resp
      = ({ st with headers := [("Authorization", "bearer " ++ t)] }, .ok ()) := by
  have hrs := raise_for_status_none_of_2xx resp h2xx
  simp [authenticate, hu, hrs, hb, pyGetItem, ht, pyStr]

/-- C3 witness: a concrete 200 response with token `fake_token` sets the
header state to exactly the bearer header, replacing a prior header. -/
theorem claim3_witness :
    authenticate ⟨[("Authorization", "old")], [], []⟩
        (.ok [("api_key", .jstr "k")]) (.ok [("iss", .jstr "https://h/user")])
        ⟨200, some (.jobj [("access_token", .jstr "fake_token")])⟩
      = (⟨[("Authorization", "bearer fake_token")], [], []⟩, .ok ()) :=
  claim3_auth_success_replaces_headers
    ⟨[("Authorization", "old")], [], []⟩ [("api_key", .jstr "k")]
    [("access_token", .jstr "fake_token")]
    (.ok [("iss", .jstr "https://h/user")])
    ⟨200, some (.jobj [("access_token", .jstr "fake_token")])⟩
    "https://h" "fake_token" rfl (by decide) rfl rfl

/-- C4 counterexample: a 300 response is not 2xx, yet `raise_for_status`
does not raise for it, so `authenticate` succeeds and replaces the header
state — refuting the claim that every non-2xx response propagates an HTTP
error with the header state unchanged. -/
theorem claim4_counterexample :
    is2xx 300 = false ∧
    authenticate ⟨[("Authorization", "old")], [], []⟩
        (.ok [("api_key", .jstr "k")]) (.ok [("iss", .jstr "https://h/user")])
        ⟨300, some (.jobj [("access_token", .jstr "t")])⟩
      = (⟨[("Authorization", "bearer t")], [], []⟩, .ok ()) :=
  ⟨by decide, rfl⟩

/-- C4 amended: for every authenticate call whose POST yields a 4xx or 5xx
response, the call fails with an HTTP error carrying the status code and
the state (headers included) is exactly what it was before the call. -/
theorem claim4_amended_auth_4xx5xx_propagates (st : ClientState)
    (key : List (String × JVal))
    (decoded : Except PyErr (List (String × JVal))) (resp : Response)
    (u : String)
    (hu : url_from_jwt key decoded = .ok u)
    (h4 : 400 ≤ resp.status_code) (h6 : resp.status_code < 600) :
    authenticate st (.ok key) decoded resp
      = (st, .error (.httpError resp.status_code)) := by
  have hrs := raise_for_status_4xx5xx resp h4 h6
  simp [authenticate, hu, hrs]

/-- C4 amended witness: a concrete 401 response propagates
`HTTPError(401)` and leaves the prior header state in place. -/
theorem claim4_witness :
    authenticate ⟨[("Authorization", "old")], [], []⟩
        (.ok [("api_key", .jstr "k")]) (.ok [("iss", .jstr "https://h/user")])
        ⟨401, some (.jobj [])⟩
      = (⟨[("Authorization", "old")], [], []⟩, .error (.httpError 401)) :=
  claim4_amended_auth_4xx5xx_propagates ⟨[("Authorization", "old")], [], []⟩
    [("api_key", .jstr "k")] (.ok [("iss", .jstr "https://h/user")])
    ⟨401, some (.jobj [])⟩ "https://h" rfl (by decide) (by decide)

/-- C5: for every authenticate call whose POST yields a 2xx response whose
JSON object body lacks the `access_token` field, the call fails with
`KeyError('access_token')` (the missing-field failure) and the state is
unchanged. -/
theorem claim5_auth_missing_token_keyerror (st : ClientState)
    (key fields : List (String × JVal))
    (decoded : Except PyErr (List (String × JVal))) (resp : Response)
    (u : String)
    (hu : url_from_jwt key decoded = .ok u)
    (h2xx : is2xx resp.status_code = true)
    (hb : resp.body = some (.jobj fields))
    (ht : dictGet fields "access_token" = none) :
    authenticate st (.ok key) decoded resp
      = (st, .error (.keyError "access_token")) := by
  have hrs := raise_for_status_none_of_2xx resp h2xx
  simp [authenticate, hu, hrs, hb, pyGetItem, ht]

/-- C5 witness: a concrete 200 response with empty object body propagates
the missing-field failure. -/
theorem claim5_witness :
    authenticate ⟨[], [], []⟩ (.ok [("api_key", .jstr "k")])
        (.ok [("iss", .jstr "https://h/user")]) ⟨200, some (.jobj [])⟩
      = (⟨[], [], []⟩, .error (.keyError "access_token")) :=
  claim5_auth_missing_token_keyerror ⟨[], [], []⟩ [("api_key", .jstr "k")] []
    (.ok [("iss", .jstr "https://h/user")]) ⟨200, some (.jobj [])⟩
    "https://h" rfl (by decide) rfl rfl

/-! ### Claims about URL resolution (C6, C7) -/

theorem removesuffix_append (t u : String) (hu : u.data ≠ []) :
    removesuffix ⟨t.data ++ u.data⟩ u = t := by
  unfold removesuffix
  have hsuf : u.data.isSuffixOf (t.data ++ u.data) = true :=
    List.isSuffixOf_iff_suffix.mpr ⟨t.data, rfl⟩
  have hne : u.data.isEmpty = false := by simpa [List.isEmpty_iff] using hu
  rw [if_pos (by simp [hsuf, hne])]
  simp only [List.length_append, Nat.add_sub_cancel]
  show String.mk ((t.data ++ u.data).take t.data.length) = t
  rw [List.take_left]

theorem removesuffix_of_not_suffix (s u : String)
    (h : ∀ t : String, s.data ≠ t.data ++ u.data) :
    removesuffix s u = s := by
  unfold removesuffix
  have hsuf : u.data.isSuffixOf s.data = false := by
    cases ht : u.data.isSuffixOf s.data
    · rfl
    · exfalso
      obtain ⟨pre, hpre⟩ := List.isSuffixOf_iff_suffix.mp ht
      exact h ⟨pre⟩ hpre.symm
  rw [if_neg (by simp [hsuf])]

/-- C6: for every credential carrying an `api_key` and a payload with a
string issuer claim `s`, URL resolution returns `s` with the literal suffix
`/user` stripped when `s` ends with it, and `s` unchanged otherwise; in
particular the issuer `https://data.test.biocommons.org.au/user` resolves to
exactly `https://data.test.biocommons.org.au`. -/
theorem claim6_url_from_issuer (cred payload : List (String × JVal))
    (tok : JVal) (s : String)
    (h1 : dictGet cred "api_key" = some tok)
    (h2 : dictGet payload "iss" = some (.jstr s)) :
    (∀ t : String, s.data = t.data ++ "/user".data →
        url_from_jwt cred (.ok payload) = .ok t) ∧
    ((∀ t : String, s.data ≠ t.data ++ "/user".data) →
        url_from_jwt cred (.ok payload) = .ok s) ∧
    url_from_jwt [("api_key", .jstr "k")]
        (.ok [("iss", .jstr "https://data.test.biocommons.org.au/user")])
      = .ok "https://data.test.biocommons.org.au" := by
  have hbase : url_from_jwt cred (.ok payload) = .ok (removesuffix s "/user") := by
    simp [url_from_jwt, pyGetItem, h1, h2]
  refine ⟨fun t ht => ?_, fun hn => ?_, by rfl⟩
  · rw [hbase]
    have hs' : s = ⟨t.data ++ "/user".data⟩ := congrArg String.mk ht
    rw [hs', removesuffix_append t "/user" (by decide)]
  · rw [hbase, removesuffix_of_not_suffix s "/user" hn]

/-- C6 witness: the biocommons issuer resolves to the stripped base URL. -/
theorem claim6_witness :
    url_from_jwt [("api_key", JVal.jstr "k")]
        (.ok [("iss", JVal.jstr "https://data.test.biocommons.org.au/user")])
      = .ok "https://data.test.biocommons.org.au" :=
  (claim6_url_from_issuer [("api_key", .jstr "k")]
    [("iss", .jstr "https://data.test.biocommons.org.au/user")]
    (.jstr "k") "https://data.test.biocommons.org.au/user" rfl rfl).2.2

/-- C7: for every credential carrying an `api_key` whose decoded payload has
no issuer claim, URL resolution does not fail: it returns the empty string
as the base URL. -/
theorem claim7_no_issuer_empty_url (cred payload : List (String × JVal))
    (tok : JVal)
    (h1 : dictGet cred "api_key" = some tok)
    (h2 : dictGet payload "iss" = none) :
    url_from_jwt cred (.ok payload) = .ok "" := by
  simp [url_from_jwt, pyGetItem, h1, h2]

/-- C7 witness: a concrete payload without `iss` resolves to `""`. -/
theorem claim7_witness :
    url_from_jwt [("api_key", JVal.jstr "k")] (.ok [("sub", JVal.jstr "21")])
      = .ok "" :=
  claim7_no_issuer_empty_url [("api_key", .jstr "k")]
    [("sub", .jstr "21")] (.jstr "k") rfl rfl

/-! ### Claims about fetch_data (C1, C8) -/

/-- C1 counterexample: a 300 response is non-2xx, yet `raise_for_status`
does not raise for it, so `fetch_data` parses and stores the body under the
composite key and succeeds — refuting "every non-2xx response propagates an
HTTP error and creates or modifies no DataStore entry". -/
theorem claim1_counterexample :
    is2xx 300 = false ∧
    fetch_data ⟨[], [], []⟩ (.ok [("api_key", .jstr "k")])
        (.ok [("iss", .jstr "https://h/user")]) ⟨300, some (.jobj [])⟩
        "p" "c" "n" false
      = (⟨[], [("p/c/n", .jobj [])], []⟩, .ok none) :=
  ⟨by decide, rfl⟩

/-- C1 amended: for every `fetch_data` call whose GET yields a 4xx or 5xx
response, the current variant propagates `HTTPError(status)` with the state
(hence DataStore) untouched, while the older `parser.py` variant prints and
swallows the error, returning `None`, also with the state untouched;
statuses outside 400–599 are not treated as errors. -/
theorem claim1_amended_fetch_4xx5xx (st : ClientState)
    (key : List (String × JVal))
    (decoded : Except PyErr (List (String × JVal))) (resp : Response)
    (u p c n : String) (flag : Bool)
    (hu : url_from_jwt key decoded = .ok u)
    (h4 : 400 ≤ resp.status_code) (h6 : resp.status_code < 600) :
    fetch_data st (.ok key) decoded resp p c n flag
      = (st, .error (.httpError resp.status_code)) ∧
    OldParser.fetch_data st resp p c n flag = (st, .ok none) := by
  have hrs := raise_for_status_4xx5xx resp h4 h6
  constructor
  · simp [fetch_data, hu, hrs]
  · simp [OldParser.fetch_data, hrs]

/-- C1 amended witness: a concrete 404 response propagates `HTTPError(404)`
in the current variant, is swallowed in the old one, and in both the
DataStore is unchanged. -/
theorem claim1_witness :
    fetch_data ⟨[], [("x", JVal.jnull)], []⟩ (.ok [("api_key", .jstr "k")])
        (.ok [("iss", .jstr "https://h/user")]) ⟨404, none⟩ "p" "c" "n" false
      = (⟨[], [("x", JVal.jnull)], []⟩, .error (.httpError 404)) ∧
    OldParser.fetch_data ⟨[], [("x", JVal.jnull)], []⟩ ⟨404, none⟩
        "p" "c" "n" false
      = (⟨[], [("x", JVal.jnull)], []⟩, .ok none) :=
  claim1_amended_fetch_4xx5xx ⟨[], [("x", JVal.jnull)], []⟩
    [("api_key", .jstr "k")] (.ok [("iss", .jstr "https://h/user")])
    ⟨404, none⟩ "https://h" "p" "c" "n" false rfl (by decide) (by decide)

/-- C8: every successful `fetch_data` call stores the raw parsed body
unmodified under exactly `program/project/node`, overwriting (the key list
is unchanged when the key was already present) rather than appending, other
keys are untouched, and the call returns the data exactly when
`return_data` is true. -/
theorem claim8_fetch_success_stores (st : ClientState)
    (key : List (String × JVal))
    (decoded : Except PyErr (List (String × JVal))) (resp : Response)
    (u : String) (data : JVal) (p c n : String) (flag : Bool)
    (hu : url_from_jwt key decoded = .ok u)
    (h2xx : is2xx resp.status_code = true)
    (hb : resp.body = some data) :
    fetch_data st (.ok key) decoded resp p c n flag
      = ({ st with data_store := dictSet st.data_store (fetchKey p c n) data },
          .ok (if flag then some data else none)) ∧
    dictGet (dictSet st.data_store (fetchKey p c n) data) (fetchKey p c n)
      = some data ∧
    (∀ k', k' ≠ fetchKey p c n →
        dictGet (dictSet st.data_store (fetchKey p c n) data) k'
          = dictGet st.data_store k') ∧
    (dictSet st.data_store (fetchKey p c n) data).map Prod.fst
      = (if (st.data_store.map Prod.fst).contains (fetchKey p c n)
         then st.data_store.map Prod.fst
         else st.data_store.map Prod.fst ++ [fetchKey p c n]) := by
  have hrs := raise_for_status_none_of_2xx resp h2xx
  refine ⟨?_, dictGet_dictSet_self _ _ _,
    fun k' hk => dictGet_dictSet_ne _ _ _ _ hk, keys_dictSet _ _ _⟩
  simp [fetch_data, hu, hrs, hb]

/-- C8 witness: a concrete 200 response overwrites the existing entry under
`p/c/n` (single key, new value) and is returned since the flag is true. -/
theorem claim8_witness :
    fetch_data ⟨[], [("p/c/n", JVal.jnull)], []⟩ (.ok [("api_key", .jstr "k")])
        (.ok [("iss", .jstr "https://h/user")])
        ⟨200, some (.jobj [("data", .jarr [])])⟩ "p" "c" "n" true
      = (⟨[], [("p/c/n", .jobj [("data", .jarr [])])], []⟩,
          .ok (some (.jobj [("data", .jarr [])]))) ∧
    (dictSet [("p/c/n", JVal.jnull)] (fetchKey "p" "c" "n")
        (.jobj [("data", .jarr [])])).map Prod.fst = ["p/c/n"] := by
  have h := claim8_fetch_success_stores ⟨[], [("p/c/n", JVal.jnull)], []⟩
    [("api_key", .jstr "k")] (.ok [("iss", .jstr "https://h/user")])
    ⟨200, some (.jobj [("data", .jarr [])])⟩ "https://h"
    (.jobj [("data", .jarr [])]) "p" "c" "n" true rfl (by decide) rfl
  exact ⟨h.1.trans (by rfl), h.2.2.2.trans (by rfl)⟩

/-! ### Claims about the store invariant and conversion (C9, C10) -/

theorem storeInv_all (st : ClientState) :
    storeInv st = true ↔
      ∀ q ∈ st.data_store_pd, (dictGet st.data_store q.1).isSome = true := by
  unfold storeInv
  exact List.all_eq_true

theorem storeInv_dictSet_data (st : ClientState) (k : String) (v : JVal)
    (h : storeInv st = true) :
    storeInv { st with data_store := dictSet st.data_store k v } = true := by
  rw [storeInv_all] at *
  intro q hq
  exact dictGet_dictSet_isSome _ _ _ _ (h q hq)

theorem authenticate_preserves_stores (st : ClientState)
    (loadKey decoded : Except PyErr (List (String × JVal))) (resp : Response) :
    (authenticate st loadKey decoded resp).1.data_store = st.data_store ∧
    (authenticate st loadKey decoded resp).1.data_store_pd
      = st.data_store_pd := by
  constructor <;> (unfold authenticate; repeat' split) <;> rfl

theorem fetch_data_preserves_pd (st : ClientState)
    (loadKey decoded : Except PyErr (List (String × JVal))) (resp : Response)
    (p c n : String) (flag : Bool) :
    (fetch_data st loadKey decoded resp p c n flag).1.data_store_pd
      = st.data_store_pd := by
  unfold fetch_data
  repeat' split
  all_goals rfl

theorem fetch_data_preserves_inv (st : ClientState)
    (loadKey decoded : Except PyErr (List (String × JVal))) (resp : Response)
    (p c n : String) (flag : Bool) (h : storeInv st = true) :
    storeInv (fetch_data st loadKey decoded resp p c n flag).1 = true := by
  unfold fetch_data
  repeat' split
  all_goals first
    | exact h
    | exact storeInv_dictSet_data st _ _ h

theorem dataToPdGo_data_store (entries : List (String × JVal))
    (st : ClientState) :
    (dataToPdGo entries st).1.data_store = st.data_store := by
  induction entries generalizing st with
  | nil => rfl
  | cons e rest ih =>
      obtain ⟨k, v⟩ := e
      unfold dataToPdGo
      split
      · rfl
      · exact ih _

theorem dataToPdGo_pd_isSome (entries : List (String × JVal))
    (st : ClientState) (x : String)
    (h : (dictGet st.data_store_pd x).isSome = true) :
    (dictGet (dataToPdGo entries st).1.data_store_pd x).isSome = true := by
  induction entries generalizing st with
  | nil => exact h
  | cons e rest ih =>
      obtain ⟨k, v⟩ := e
      unfold dataToPdGo
      split
      · exact h
      · exact ih _ (dictGet_dictSet_isSome _ _ _ _ h)

theorem dataToPdGo_preserves_inv (entries : List (String × JVal))
    (st : ClientState)
    (hsub : ∀ q ∈ entries, (dictGet st.data_store q.1).isSome = true)
    (h : storeInv st = true) :
    storeInv (dataToPdGo entries st).1 = true := by
  induction entries generalizing st with
  | nil => exact h
  | cons e rest ih =>
      obtain ⟨k, v⟩ := e
      unfold dataToPdGo
      split
      · exact h
      · refine ih _ (fun q hq => hsub q (List.mem_cons_of_mem _ hq)) ?_
        rw [storeInv_all]
        intro q hq
        rcases mem_dictSet hq with h1 | h1
        · rw [h1]
          exact hsub (k, v) (List.mem_cons_self _ _)
        · exact (storeInv_all st).mp h q h1

/-- C9: every operation of the client (authenticate, fetch_data,
data_to_pd) preserves the invariant that every key of TableStore
(`data_store_pd`) is also a key of DataStore (`data_store`); moreover
fetch_data never touches TableStore, authenticate touches neither store,
and data_to_pd never touches DataStore. -/
theorem claim9_tablestore_invariant_preserved (st : ClientState)
    (loadKey decoded : Except PyErr (List (String × JVal))) (resp : Response)
    (p c n : String) (flag : Bool)
    (hinv : storeInv st = true) :
    storeInv (authenticate st loadKey decoded resp).1 = true ∧
    storeInv (fetch_data st loadKey decoded resp p c n flag).1 = true ∧
    storeInv (data_to_pd st).1 = true ∧
    (fetch_data st loadKey decoded resp p c n flag).1.data_store_pd
      = st.data_store_pd ∧
    (authenticate st loadKey decoded resp).1.data_store = st.data_store ∧
    (authenticate st loadKey decoded resp).1.data_store_pd
      = st.data_store_pd ∧
    (data_to_pd st).1.data_store = st.data_store := by
  obtain ⟨ha1, ha2⟩ := authenticate_preserves_stores st loadKey decoded resp
  refine ⟨?_, fetch_data_preserves_inv st loadKey decoded resp p c n flag hinv,
    ?_, fetch_data_preserves_pd st loadKey decoded resp p c n flag,
    ha1, ha2, dataToPdGo_data_store st.data_store st⟩
  · rw [storeInv_all, ha1, ha2]
    exact (storeInv_all st).mp hinv
  · exact dataToPdGo_preserves_inv st.data_store st
      (fun q hq => dictGet_isSome_of_mem hq) hinv

/-- C9 witness: on a concrete state satisfying the invariant, all three
operations preserve it. -/
theorem claim9_witness :
    storeInv (authenticate
        ⟨[], [("k1", .jobj [("data", .jarr [])])], [("k1", [])]⟩
        (.ok [("api_key", .jstr "k")]) (.ok [("iss", .jstr "https://h/user")])
        ⟨200, some (.jobj [("access_token", .jstr "t")])⟩).1 = true ∧
    storeInv (fetch_data
        ⟨[], [("k1", .jobj [("data", .jarr [])])], [("k1", [])]⟩
        (.ok [("api_key", .jstr "k")]) (.ok [("iss", .jstr "https://h/user")])
        ⟨200, some (.jobj [("data", .jarr [])])⟩ "p" "c" "n" false).1 = true ∧
    storeInv (data_to_pd
        ⟨[], [("k1", .jobj [("data", .jarr [])])], [("k1", [])]⟩).1 = true := by
  have h := claim9_tablestore_invariant_preserved
    ⟨[], [("k1", .jobj [("data", .jarr [])])], [("k1", [])]⟩
    (.ok [("api_key", .jstr "k")]) (.ok [("iss", .jstr "https://h/user")])
    ⟨200, some (.jobj [("access_token", .jstr "t")])⟩ "p" "c" "n" false
    (by rfl)
  have h' := claim9_tablestore_invariant_preserved
    ⟨[], [("k1", .jobj [("data", .jarr [])])], [("k1", [])]⟩
    (.ok [("api_key", .jstr "k")]) (.ok [("iss", .jstr "https://h/user")])
    ⟨200, some (.jobj [("data", .jarr [])])⟩ "p" "c" "n" false
    (by rfl)
  exact ⟨h.1, h'.2.1, h.2.2.1⟩

/-- C10 counterexample: in the state whose DataStore holds
`a ↦ [] (a JSON array)` and `b ↦ {}` (a mapping lacking `data`), some
entry's value is a mapping lacking the `data` field, yet `data_to_pd` fails
with `TypeError` (subscripting the array at `a`), not with the missing-key
error — refuting the claim as stated. -/
theorem claim10_counterexample :
    dictGet [("a", JVal.jarr []), ("b", JVal.jobj [])] "b"
        = some (.jobj []) ∧
    dictGet ([] : List (String × JVal)) "data" = none ∧
    (data_to_pd ⟨[], [("a", .jarr []), ("b", .jobj [])], []⟩).2
        = .error .typeError ∧
    (Except.error PyErr.typeError : Except PyErr Unit)
        ≠ .error (.keyError "data") :=
  ⟨rfl, rfl, rfl, by simp⟩

theorem dataToPdGo_first_missing (pre : List (String × JVal))
    (st : ClientState) (k : String) (fields : List (String × JVal))
    (post : List (String × JVal))
    (hpre : ∀ q ∈ pre, ∃ fs d, q.2 = JVal.jobj fs ∧ dictGet fs "data" = some d)
    (hmiss : dictGet fields "data" = none) :
    (dataToPdGo (pre ++ (k, .jobj fields) :: post) st).2
        = .error (.keyError "data") ∧
    (dataToPdGo (pre ++ (k, .jobj fields) :: post) st).1.data_store
        = st.data_store ∧
    ∀ q ∈ pre,
      (dictGet (dataToPdGo (pre ++ (k, .jobj fields) :: post) st).1.data_store_pd
        q.1).isSome = true := by
  induction pre generalizing st with
  | nil =>
      refine ⟨?_, ?_, by simp⟩ <;>
        · simp only [List.nil_append]
          simp [dataToPdGo, pyGetItem, hmiss]
  | cons q0 pre' ih =>
      obtain ⟨k0, v0⟩ := q0
      obtain ⟨fs0, d0, hv0, hd0⟩ := hpre (k0, v0) (List.mem_cons_self _ _)
      simp only at hv0
      subst hv0
      have hget : pyGetItem (.jobj fs0) "data" = .ok d0 := by
        simp [pyGetItem, hd0]
      have hstep :
          dataToPdGo ((k0, JVal.jobj fs0) ::
              (pre' ++ (k, JVal.jobj fields) :: post)) st
            = dataToPdGo (pre' ++ (k, JVal.jobj fields) :: post)
                ⟨st.headers, st.data_store,
                  dictSet st.data_store_pd k0 (json_to_pd d0)⟩ := by
        simp [dataToPdGo, hget]
      have hih := ih
        ⟨st.headers, st.data_store, dictSet st.data_store_pd k0 (json_to_pd d0)⟩
        (fun q hq => hpre q (List.mem_cons_of_mem _ hq))
      simp only [List.cons_append]
      refine ⟨?_, ?_, ?_⟩
      · rw [hstep]; exact hih.1
      · rw [hstep]; exact hih.2.1
      · intro q hq
        rw [hstep]
        rcases List.mem_cons.mp hq with h1 | h1
        · rw [h1]
          exact dataToPdGo_pd_isSome _ _ _
            (by rw [dictGet_dictSet_self]; rfl)
        · exact hih.2.2 q h1

/-- C10 amended: whenever DataStore splits as `pre ++ (k, m) :: post` where
`m` is a mapping lacking the `data` field and every entry of `pre` is a
mapping containing `data`, `data_to_pd` fails with the missing-key error
`KeyError('data')`, and the conversion is not atomic: a TableStore entry
exists for every key iterated before the failing one, while DataStore is
unchanged.  (The original claim, unconditioned on the earlier entries,
fails when an earlier entry is not a mapping: the error is then a
TypeError.) -/
theorem claim10_amended_missing_data_keyerror (st : ClientState)
    (pre post : List (String × JVal)) (k : String)
    (fields : List (String × JVal))
    (hsplit : st.data_store = pre ++ (k, .jobj fields) :: post)
    (hpre : ∀ q ∈ pre, ∃ fs d, q.2 = JVal.jobj fs ∧ dictGet fs "data" = some d)
    (hmiss : dictGet fields "data" = none) :
    (data_to_pd st).2 = .error (.keyError "data") ∧
    (data_to_pd st).1.data_store = st.data_store ∧
    ∀ q ∈ pre,
      (dictGet (data_to_pd st).1.data_store_pd q.1).isSome = true := by
  have h := dataToPdGo_first_missing pre st k fields post hpre hmiss
  have he : data_to_pd st
      = dataToPdGo (pre ++ (k, .jobj fields) :: post) st := by
    unfold data_to_pd
    rw [hsplit]
  rw [he]
  exact ⟨h.1, h.2.1, h.2.2⟩

/-- C10 amended witness: with `a` holding a record list and `b` a mapping
without `data`, conversion fails with `KeyError('data')` but the table for
`a` has been produced and remains. -/
theorem claim10_witness :
    (data_to_pd ⟨[], [("a", .jobj [("data", .jarr [])]),
        ("b", .jobj [])], []⟩).2 = .error (.keyError "data") ∧
    (data_to_pd ⟨[], [("a", .jobj [("data", .jarr [])]),
        ("b", .jobj [])], []⟩).1.data_store
      = [("a", .jobj [("data", .jarr [])]), ("b", .jobj [])] ∧
    (dictGet (data_to_pd ⟨[], [("a", .jobj [("data", .jarr [])]),
        ("b", .jobj [])], []⟩).1.data_store_pd "a").isSome = true := by
  have h := claim10_amended_missing_data_keyerror
    ⟨[], [("a", .jobj [("data", .jarr [])]), ("b", .jobj [])], []⟩
    [("a", .jobj [("data", .jarr [])])] [] "b" []
    rfl
    (by
      intro q hq
      simp only [List.mem_singleton] at hq
      subst hq
      exact ⟨[("data", .jarr [])], .jarr [], rfl, rfl⟩)
    rfl
  exact ⟨h.1, h.2.1, h.2.2 ("a", .jobj [("data", .jarr [])])
    (List.mem_singleton.mpr rfl)⟩

/-! ### Claim about the tolerant credential loader (C2) -/

/-- C2: for every credential file consisting of an object of unquoted
word-character keys and bare URL-safe-character values, rendered
`{k1: v1, k2: v2, ...}` (hence containing no quote characters at all), the
loader takes the tolerant path (strict parse fails, the two regex repairs
quote keys before a colon and bare values before a comma or closing brace)
and yields exactly the same mapping as strict-JSON parsing of the properly
quoted version of the file — namely the rendered pairs themselves. -/
theorem claim2_tolerant_loader_agrees (ps : List (String × String))
    (h : validPairs ps = true) :
    loadApiKey (renderUnquoted ps) = parseFlatObj (renderQuoted ps) ∧
    loadApiKey (renderUnquoted ps) = some ps := by
  have hq := renderU_noquote ps h
  have hQ := parseFlatObj_renderQ ps h
  have hload : loadApiKey (renderUnquoted ps)
      = addQuotesToJson (renderUnquoted ps) := by
    unfold loadApiKey
    rw [hq]
    rfl
  cases ps with
  | nil => exact ⟨rfl, rfl⟩
  | cons p tl =>
      obtain ⟨k, v⟩ := p
      have hU := parseFlatObj_renderU_cons_none k v tl h
      have hfix := fixQuotes_renderU ((k, v) :: tl) h
      have hAdd : addQuotesToJson (renderUnquoted ((k, v) :: tl))
          = some ((k, v) :: tl) := by
        unfold addQuotesToJson
        rw [hU]
        dsimp only
        rw [hfix, hQ]
      rw [hload, hAdd, hQ]
      exact ⟨rfl, rfl⟩

/-- C2 witness: the concrete unquoted credential file
`{api_key: abc.def, key_id: b90-42701}` loads, via the repair path, to the
same mapping as strict parsing of its properly quoted version. -/
theorem claim2_witness :
    loadApiKey
        (renderUnquoted [("api_key", "abc.def"), ("key_id", "b90-42701")])
      = parseFlatObj
          (renderQuoted [("api_key", "abc.def"), ("key_id", "b90-42701")]) ∧
    loadApiKey
        (renderUnquoted [("api_key", "abc.def"), ("key_id", "b90-42701")])
      = some [("api_key", "abc.def"), ("key_id", "b90-42701")] :=
  claim2_tolerant_loader_agrees
    [("api_key", "abc.def"), ("key_id", "b90-42701")] (by decide)

end Gen3
